import Mathlib

set_option maxRecDepth 16000

/-!
Verification of the supabase/auth Web3 core
(`internal/api/provider/eip4361.go` and the crypto module it embeds):
envelope encryption (AES-GCM with per-record HKDF key derivation),
Ethereum (EIP-191/EIP-4361) signature verification, Sign-In-With-Solana
(SIWS) message verification, challenge generation and provider
construction.

External cryptographic primitives (Keccak-256, secp256k1 recovery,
AES-GCM, HKDF-SHA256, ed25519, Go's `url.Parse` and `json`
marshalling) are modelled as parameters: every definition below mirrors
the *control flow and data handling of the Go source*, with the
primitive operations abstracted.  Byte-level codecs implemented in the
source's direct dependencies that the claims quantify over
(URL-safe base64 without padding, hexadecimal) are implemented
concretely.
-/

namespace Auth

/-! ## URL-safe base64 (Go `base64.RawURLEncoding`) -/

/-- Character of the URL-safe base64 alphabet for a 6-bit value
(`A-Z`, `a-z`, `0-9`, `-`, `_`). -/
def b64Char (v : Nat) : Char :=
  if v < 26 then Char.ofNat (v + 65)
  else if v < 52 then Char.ofNat (v + 71)
  else if v < 62 then Char.ofNat (v - 4)
  else if v = 62 then '-'
  else '_'

/-- 6-bit value of a URL-safe base64 character, `none` when the
character is outside the alphabet. -/
def b64Val (c : Char) : Option Nat :=
  let n := c.toNat
  if 65 ≤ n ∧ n ≤ 90 then some (n - 65)
  else if 97 ≤ n ∧ n ≤ 122 then some (n - 71)
  else if 48 ≤ n ∧ n ≤ 57 then some (n + 4)
  else if n = 45 then some 62
  else if n = 95 then some 63
  else none

/-- Unpadded URL-safe base64 encoding of a byte list
(Go `base64.RawURLEncoding.EncodeToString`). -/
def b64Encode : List Nat → List Char
  | [] => []
  | [a] => [b64Char (a / 4), b64Char (a % 4 * 16)]
  | [a, b] => [b64Char (a / 4), b64Char (a % 4 * 16 + b / 16), b64Char (b % 16 * 4)]
  | a :: b :: c :: rest =>
      b64Char (a / 4) :: b64Char (a % 4 * 16 + b / 16) ::
      b64Char (b % 16 * 4 + c / 64) :: b64Char (c % 64) :: b64Encode rest

/-- Unpadded URL-safe base64 decoding
(Go `base64.RawURLEncoding.DecodeString`): fails on characters outside
the alphabet and on input lengths ≡ 1 (mod 4). -/
def b64Decode : List Char → Option (List Nat)
  | [] => some []
  | [_] => none
  | [c1, c2] => do
      let v1 ← b64Val c1
      let v2 ← b64Val c2
      some [v1 * 4 + v2 / 16]
  | [c1, c2, c3] => do
      let v1 ← b64Val c1
      let v2 ← b64Val c2
      let v3 ← b64Val c3
      some [v1 * 4 + v2 / 16, v2 % 16 * 16 + v3 / 4]
  | c1 :: c2 :: c3 :: c4 :: rest => do
      let v1 ← b64Val c1
      let v2 ← b64Val c2
      let v3 ← b64Val c3
      let v4 ← b64Val c4
      let tail ← b64Decode rest
      some ((v1 * 4 + v2 / 16) :: (v2 % 16 * 16 + v3 / 4) :: (v3 % 4 * 64 + v4) :: tail)

/-- String-level decode, as Go applies it to the configured key
material. -/
def base64RawURLDecode (s : String) : Option (List Nat) :=
  b64Decode s.data

/-- String-level encode. -/
def base64RawURLEncode (bs : List Nat) : String :=
  String.mk (b64Encode bs)

theorem b64Val_b64Char (v : Nat) (hv : v < 64) : b64Val (b64Char v) = some v := by
  interval_cases v <;> decide

/-- Decoding inverts encoding on genuine byte lists. -/
theorem b64Decode_b64Encode (bs : List Nat) (h : ∀ x ∈ bs, x < 256) :
    b64Decode (b64Encode bs) = some bs := by
  induction bs using b64Encode.induct with
  | case1 => simp [b64Encode, b64Decode]
  | case2 a =>
      have ha : a < 256 := h a (by simp)
      have e1 := b64Val_b64Char (a / 4) (by omega)
      have e2 := b64Val_b64Char (a % 4 * 16) (by omega)
      simp only [b64Encode, b64Decode, e1, e2,
        Option.bind_eq_bind, Option.some_bind, Option.some.injEq,
        List.cons.injEq, and_true]
      omega
  | case3 a b =>
      have ha : a < 256 := h a (by simp)
      have hb : b < 256 := h b (by simp)
      have e1 := b64Val_b64Char (a / 4) (by omega)
      have e2 := b64Val_b64Char (a % 4 * 16 + b / 16) (by omega)
      have e3 := b64Val_b64Char (b % 16 * 4) (by omega)
      simp only [b64Encode, b64Decode, e1, e2, e3,
        Option.bind_eq_bind, Option.some_bind, Option.some.injEq,
        List.cons.injEq, and_true]
      constructor <;> omega
  | case4 a b c rest ih =>
      have ha : a < 256 := h a (by simp)
      have hb : b < 256 := h b (by simp)
      have hc : c < 256 := h c (by simp)
      have hrest : ∀ x ∈ rest, x < 256 := fun x hx => h x (by simp [hx])
      have e1 := b64Val_b64Char (a / 4) (by omega)
      have e2 := b64Val_b64Char (a % 4 * 16 + b / 16) (by omega)
      have e3 := b64Val_b64Char (b % 16 * 4 + c / 64) (by omega)
      have e4 := b64Val_b64Char (c % 64) (by omega)
      simp only [b64Encode, b64Decode, e1, e2, e3, e4, ih hrest,
        Option.bind_eq_bind, Option.some_bind, Option.some.injEq,
        List.cons.injEq, and_true]
      refine ⟨by omega, by omega, by omega⟩

/-- Encoding is injective on byte lists. -/
theorem b64Encode_injective (b1 b2 : List Nat)
    (h1 : ∀ x ∈ b1, x < 256) (h2 : ∀ x ∈ b2, x < 256)
    (he : b64Encode b1 = b64Encode b2) : b1 = b2 := by
  have d1 := b64Decode_b64Encode b1 h1
  have d2 := b64Decode_b64Encode b2 h2
  rw [he, d2] at d1
  exact (Option.some.injEq _ _ ▸ d1).symm

/-! ## Hexadecimal (Go `encoding/hex`) -/

/-- 4-bit value of a hexadecimal digit (both cases accepted, as in Go's
`fromHexChar`). -/
def hexVal (c : Char) : Option Nat :=
  let n := c.toNat
  if 48 ≤ n ∧ n ≤ 57 then some (n - 48)
  else if 97 ≤ n ∧ n ≤ 102 then some (n - 87)
  else if 65 ≤ n ∧ n ≤ 70 then some (n - 55)
  else none

/-- Hex decode (Go `hex.DecodeString`): pairs of digits, failing on odd
length or a character outside `0-9a-fA-F`. -/
def hexDecode : List Char → Option (List Nat)
  | [] => some []
  | [_] => none
  | c1 :: c2 :: rest => do
      let v1 ← hexVal c1
      let v2 ← hexVal c2
      let tail ← hexDecode rest
      some ((v1 * 16 + v2) :: tail)

def hexDecodeStr (s : String) : Option (List Nat) :=
  hexDecode s.data

/-- Go `removeHexPrefix`: strip a leading `0x` when present
(`strings.HasPrefix` / `strings.TrimPrefix` over the character
sequence). -/
def removeHexPrefix (s : String) : String :=
  if "0x".data.isPrefixOf s.data then String.mk (s.data.drop 2) else s

/-! ## Ethereum signature verification (`VerifyEthereumSignature`)

The external primitives of go-ethereum (`crypto.Keccak256Hash`,
`crypto.SigToPub`, `crypto.PubkeyToAddress`, `common.HexToAddress`) are
abstracted into an environment; the verifier's own control flow is
translated line by line. -/

structure EthEnv where
  keccak256 : List Nat → List Nat
  sigToPub : List Nat → List Nat → Option (List Nat)
  pubkeyToAddress : List Nat → List Nat
  hexToAddress : String → List Nat

/-- UTF-8 encoding of one character. -/
def charUtf8 (c : Char) : List Nat :=
  let n := c.toNat
  if n < 128 then [n]
  else if n < 2048 then [192 + n / 64, 128 + n % 64]
  else if n < 65536 then [224 + n / 4096, 128 + n / 64 % 64, 128 + n % 64]
  else [240 + n / 262144, 128 + n / 4096 % 64, 128 + n / 64 % 64, 128 + n % 64]

/-- UTF-8 bytes of a string (Go `[]byte(s)`). -/
def strBytes (s : String) : List Nat :=
  (s.data.map charUtf8).flatten

/-- The EIP-191 prefixed message
`"\x19Ethereum Signed Message:\n" + len(message) + message`. -/
def ethPrefixedMessage (message : String) : String :=
  "\x19Ethereum Signed Message:\n" ++ toString message.utf8ByteSize ++ message

/-- V-value adjustment on the decoded signature: when the final
(65th) byte is below 27 the code adds 27 to it in place. -/
def adjustV (l : List Nat) : List Nat :=
  match l.getLast? with
  | none => l
  | some v => if v < 27 then l.dropLast ++ [v + 27] else l

/-- The byte-level tail of `VerifyEthereumSignature`, after the hex
decode of the signature succeeded. -/
def verifyEthSigBytes (E : EthEnv) (message : String) (sigBytes : List Nat)
    (address : String) : Except String Unit :=
  if sigBytes.length ≠ 65 then .error "siwe: invalid signature length"
  else
    let sig := adjustV sigBytes
    let hash := E.keccak256 (strBytes (ethPrefixedMessage message))
    match E.sigToPub hash sig with
    | none => .error "siwe: error recovering public key"
    | some pubKey =>
        if E.pubkeyToAddress pubKey ≠ E.hexToAddress address then
          .error "siwe: signature not from expected address"
        else .ok ()

/-- `VerifyEthereumSignature(message, signature, address)`. -/
def verifyEthereumSignature (E : EthEnv) (message signature address : String) :
    Except String Unit :=
  let signature := removeHexPrefix signature
  let address := removeHexPrefix address
  match hexDecodeStr signature with
  | none => .error "siwe: invalid signature hex"
  | some sigBytes => verifyEthSigBytes E message sigBytes address

theorem adjustV_concat_lt (rs : List Nat) (v : Nat) (hv : v < 27) :
    adjustV (rs ++ [v]) = rs ++ [v + 27] := by
  simp [adjustV, List.getLast?_concat, List.dropLast_concat, hv]

theorem adjustV_concat_ge (rs : List Nat) (v : Nat) (hv : ¬ v < 27) :
    adjustV (rs ++ [v]) = rs ++ [v] := by
  simp [adjustV, List.getLast?_concat, hv]

/-! ## Envelope encryption (`EncryptedString`)

AES-GCM and HKDF-SHA256 are Go-library primitives; they enter as
parameters.  `gcmSeal key nonce plaintext` is
`cipher.Seal(nil, nonce, plaintext, nil)` and
`gcmOpen key nonce ciphertext` is `cipher.Open(nil, nonce, data, nil)`
for the AES-GCM cipher of `key`; `hkdfSHA256 ikm info` is the first 32
bytes of `hkdf.New(sha256.New, ikm, nil, info)`. -/

structure GCMPrims where
  hkdfSHA256 : List Nat → String → List Nat
  gcmSeal : List Nat → List Nat → List Nat → List Nat
  gcmOpen : List Nat → List Nat → List Nat → Option (List Nat)

structure EncryptedString where
  KeyID : String
  Algorithm : String
  Data : List Nat
  Nonce : List Nat
  deriving DecidableEq, Repr

/-- `EncryptedString.IsValid`. -/
def EncryptedString.isValid (es : EncryptedString) : Bool :=
  es.KeyID ≠ "" ∧ es.Data.length > 0 ∧ es.Nonce.length > 0 ∧
    es.Algorithm = "aes-gcm-hkdf"

/-- `EncryptedString.ShouldReEncrypt`. -/
def EncryptedString.shouldReEncrypt (es : EncryptedString)
    (encryptionKeyID : String) : Bool :=
  es.KeyID ≠ encryptionKeyID

/-- `deriveSymmetricKey(id, keyID, keyBase64URL)`: base64url-decode the
key material, require 256 bits, then HKDF with the record `id` as info. -/
def deriveSymmetricKey (P : GCMPrims) (id keyID keyBase64URL : String) :
    Except String (List Nat) :=
  match base64RawURLDecode keyBase64URL with
  | none => .error "crypto: invalid base64"
  | some hkdfKey =>
      if hkdfKey.length ≠ 256 / 8 then
        .error ("crypto: key with ID " ++ keyID ++ " is not 256 bits")
      else .ok (P.hkdfSHA256 hkdfKey id)

/-- `NewEncryptedString(id, data, keyID, keyBase64URL)`; the 12 random
nonce bytes read from `rand.Reader` are the first 12 bytes of the
supplied random stream. -/
def newEncryptedString (P : GCMPrims) (rand : Nat → Nat) (id : String)
    (data : List Nat) (keyID keyBase64URL : String) :
    Except String EncryptedString :=
  match deriveSymmetricKey P id keyID keyBase64URL with
  | .error e => .error e
  | .ok key =>
      let nonce := (List.range 12).map (fun i => rand i % 256)
      .ok { KeyID := keyID, Algorithm := "aes-gcm-hkdf",
            Data := P.gcmSeal key nonce data, Nonce := nonce }

/-- `EncryptedString.Decrypt(id, decryptionKeys)`; the Go map lookup
returns the zero value `""` for an absent key. -/
def EncryptedString.decrypt (es : EncryptedString) (P : GCMPrims)
    (id : String) (decryptionKeys : List (String × String)) :
    Except String (List Nat) :=
  let decryptionKey := ((decryptionKeys.lookup es.KeyID).getD "")
  if decryptionKey = "" then
    .error ("crypto: decryption key with name " ++ es.KeyID ++ " does not exist")
  else
    match deriveSymmetricKey P id es.KeyID decryptionKey with
    | .error e => .error e
    | .ok key =>
        match P.gcmOpen key es.Nonce es.Data with
        | none => .error "cipher: message authentication failed"
        | some decrypted => .ok decrypted

/-- `ParseEncryptedString(str)`; `jsonParse` stands for
`json.Unmarshal` into the `EncryptedString` struct, `none` meaning the
unmarshal returned an error. -/
def parseEncryptedString (jsonParse : String → Option EncryptedString)
    (str : String) : Option EncryptedString :=
  if ¬ "\x7b".data.isPrefixOf str.data then none
  else
    match jsonParse str with
    | none => none
    | some es => if ¬ es.isValid then none else some es

/-! ## SIWS verification (`VerifySIWS`)

`siws.SIWSMessage` carries Go `time.Time` fields whose zero value means
"not set"; they are modelled as `Option Int` over an abstract instant
scale (nanoseconds), with `t.Before u ↔ t < u` and `t.After u ↔ t > u`,
and `d : time.Duration` as an `Int` on the same scale.  Helpers of the
`siws` utility package and external libraries are abstracted into an
environment (`IsValidDomain`, base58 decoding, `url.Parse` success,
`ed25519.Verify`); two helpers whose behaviour the spec pins down are
modelled from the spec below. -/

structure SIWSMessage where
  Domain : String
  Address : String
  Statement : String
  URI : String
  Version : String
  Nonce : String
  ChainID : String
  IssuedAt : Option Int
  NotBefore : Option Int
  ExpirationTime : Option Int
  Resources : List String

structure SIWSVerificationParams where
  ExpectedDomain : String
  CheckTime : Bool
  TimeDuration : Int

inductive SIWSErr where
  | emptyRawMessage | emptySignature | nilMessage
  | missingDomain | invalidDomainFormat | domainMismatch
  | invalidPubKeySize | invalidVersion | invalidChainID
  | nonceTooShort | invalidURI | invalidResourceURI
  | signatureVerification
  | futureMessage | messageExpired | notYetValid
  deriving DecidableEq, Repr

structure SIWSEnv where
  isValidDomain : String → Bool
  base58Decode : String → List Nat
  urlParseOk : String → Bool
  ed25519Verify : List Nat → String → List Nat → Bool

/-- Modelled from the spec: `siws.IsBase58PubKey` (not under `src/`) —
the decoded address "must decode to exactly 32 bytes (an ed25519 public
key)". -/
def isBase58PubKey (pub : List Nat) : Bool :=
  pub.length = 32

/-- Modelled from the spec: `siws.IsValidSolanaNetwork` (not under
`src/`) — the chain ID "must match a recognized Solana network
identifier (mainnet/testnet/devnet naming convention)". -/
def isValidSolanaNetwork (s : String) : Bool :=
  s = "mainnet" ∨ s = "testnet" ∨ s = "devnet"

/-- `!t.IsZero() && now.Before(t)` over the `Option Int` model of a Go
`time.Time`. -/
def timeSetAndNowBefore (t : Option Int) (now : Int) : Bool :=
  match t with
  | some v => decide (now < v)
  | none => false

/-- `!t.IsZero() && now.After(t)`. -/
def timeSetAndNowAfter (t : Option Int) (now : Int) : Bool :=
  match t with
  | some v => decide (now > v)
  | none => false

/-- Step 9 of `VerifySIWS`: the `NotBefore` and `ExpirationTime`
validations. -/
def siwsLaterTimeChecks (msg : SIWSMessage) (now : Int) : Option SIWSErr :=
  if timeSetAndNowBefore msg.NotBefore now then some .notYetValid
  else if timeSetAndNowAfter msg.ExpirationTime now then some .messageExpired
  else none

def siwsTimeChecks (msg : SIWSMessage) (params : SIWSVerificationParams)
    (now : Int) : Option SIWSErr :=
  match msg.IssuedAt with
  | some ia =>
      if now < ia then some .futureMessage
      else if params.CheckTime ∧ params.TimeDuration > 0 ∧
          now > ia + params.TimeDuration then
        some .messageExpired
      else siwsLaterTimeChecks msg now
  | none => siwsLaterTimeChecks msg now

/-- `VerifySIWS(rawMessage, signature, msg, params)`, with the current
UTC instant `now` passed explicitly. -/
def verifySIWS (E : SIWSEnv) (rawMessage : String) (signature : List Nat)
    (msg? : Option SIWSMessage) (params : SIWSVerificationParams)
    (now : Int) : Option SIWSErr :=
  if rawMessage = "" then some .emptyRawMessage
  else if signature = [] then some .emptySignature
  else
    match msg? with
    | none => some .nilMessage
    | some msg =>
        if params.ExpectedDomain = "" then some .missingDomain
        else if ¬ E.isValidDomain msg.Domain then some .invalidDomainFormat
        else if msg.Domain ≠ params.ExpectedDomain then some .domainMismatch
        else
          let pubKey := E.base58Decode msg.Address
          if ¬ isBase58PubKey pubKey then some .invalidPubKeySize
          else if msg.Version ≠ "1" then some .invalidVersion
          else if msg.ChainID ≠ "" ∧ ¬ isValidSolanaNetwork msg.ChainID then
            some .invalidChainID
          else if msg.Nonce ≠ "" ∧ msg.Nonce.utf8ByteSize < 8 then
            some .nonceTooShort
          else if msg.URI ≠ "" ∧ ¬ E.urlParseOk msg.URI then some .invalidURI
          else if msg.Resources.any (fun r => ! E.urlParseOk r) then
            some .invalidResourceURI
          else if ¬ E.ed25519Verify pubKey rawMessage signature then
            some .signatureVerification
          else siwsTimeChecks msg params now

/-- Hypotheses under which `VerifySIWS` reaches its time validations:
every check of steps 1–8 passes. -/
def ReachesTimeChecks (E : SIWSEnv) (rawMessage : String)
    (signature : List Nat) (msg : SIWSMessage)
    (params : SIWSVerificationParams) : Prop :=
  rawMessage ≠ "" ∧ signature ≠ [] ∧ params.ExpectedDomain ≠ "" ∧
  E.isValidDomain msg.Domain = true ∧ msg.Domain = params.ExpectedDomain ∧
  (E.base58Decode msg.Address).length = 32 ∧ msg.Version = "1" ∧
  (msg.ChainID = "" ∨ isValidSolanaNetwork msg.ChainID = true) ∧
  (msg.Nonce = "" ∨ ¬ msg.Nonce.utf8ByteSize < 8) ∧
  (msg.URI = "" ∨ E.urlParseOk msg.URI = true) ∧
  (∀ r ∈ msg.Resources, E.urlParseOk r = true) ∧
  E.ed25519Verify (E.base58Decode msg.Address) rawMessage signature = true

theorem verifySIWS_eq_timeChecks (E : SIWSEnv) (rawMessage : String)
    (signature : List Nat) (msg : SIWSMessage)
    (params : SIWSVerificationParams) (now : Int)
    (h : ReachesTimeChecks E rawMessage signature msg params) :
    verifySIWS E rawMessage signature (some msg) params now =
      siwsTimeChecks msg params now := by
  obtain ⟨h1, h2, h3, h4, h5, h6, h7, h8, h9, h10, h11, h12⟩ := h
  have hres : msg.Resources.any (fun r => ! E.urlParseOk r) = false := by
    simp only [List.any_eq_false, Bool.not_eq_true]
    intro r hr
    simp [h11 r hr]
  have h4' : E.isValidDomain params.ExpectedDomain = true := h5 ▸ h4
  rcases h8 with h8 | h8 <;> rcases h9 with h9 | h9 <;> rcases h10 with h10 | h10 <;>
    simp [verifySIWS, isBase58PubKey, h1, h2, h3, h4', h5, h6, h7, h8, h9, h10,
      h12, hres]

/-! ## Web3 provider (`NewWeb3Provider`, `GenerateSignMessage`)

`conf.Web3Configuration` and `conf.BlockchainConfig` live outside
`src/`; they are modelled with exactly the fields this code reads.
`config.ParseSupportedChains()` is likewise external and enters as the
already-computed parse result.  Wall-clock time enters as the
`time.Now().UTC()` instant in nanoseconds together with an abstract
RFC3339 formatter. -/

def BlockchainEthereum : String := "ethereum"

def BlockchainSolana : String := "solana"

structure BlockchainConfig where
  NetworkName : String
  ChainID : String

structure Web3Configuration where
  Enabled : Bool
  Domain : String
  Statement : String
  Version : String
  Timeout : Int
  DefaultChain : String

structure Web3Provider where
  config : Web3Configuration
  chains : List (String × BlockchainConfig)
  defaultChain : String

/-- `NewWeb3Provider(ctx, config)`. -/
def newWeb3Provider (config : Web3Configuration)
    (parseSupportedChains : Except String (List (String × BlockchainConfig))) :
    Except String Web3Provider :=
  if ¬ config.Enabled then .error "Web3 provider is not enabled"
  else
    match parseSupportedChains with
    | .error e => .error e
    | .ok chains =>
        if config.DefaultChain ≠ "" ∧ (chains.lookup config.DefaultChain).isNone then
          .error ("default chain " ++ config.DefaultChain ++ " not in supported chains")
        else
          .ok { config := config, chains := chains,
                defaultChain := config.DefaultChain }

/-- `crypto.SecureToken()`: 16 bytes from `rand.Reader`, URL-safe
base64. -/
def secureToken (rand : Nat → Nat) : String :=
  base64RawURLEncode ((List.range 16).map (fun i => rand i % 256))

/-- Modelled from the spec: `siws.ConstructMessage` (not under `src/`)
— "the canonical SIWS text serialization of the `SIWSMessage` struct
(domain, address, statement, URI, version, chain ID, nonce, IssuedAt,
optional NotBefore/ExpirationTime/Resources), following the SIWS text
layout exactly". -/
def constructMessage (fmt : Int → String) (m : SIWSMessage) : String :=
  m.Domain ++ " wants you to sign in with your Solana account:\n" ++
  m.Address ++ "\n\n" ++ m.Statement ++ "\n\n" ++
  "URI: " ++ m.URI ++ "\n" ++
  "Version: " ++ m.Version ++ "\n" ++
  "Chain ID: " ++ m.ChainID ++ "\n" ++
  "Nonce: " ++ m.Nonce ++ "\n" ++
  "Issued At: " ++ (match m.IssuedAt with | some t => fmt t | none => "") ++
  (match m.NotBefore with | some t => "\nNot Before: " ++ fmt t | none => "") ++
  (match m.ExpirationTime with
   | some t => "\nExpiration Time: " ++ fmt t
   | none => "") ++
  (match m.Resources with
   | [] => ""
   | rs => "\nResources:" ++ String.join (rs.map (fun r => "\n- " ++ r)))

/-- The Ethereum branch of `GenerateSignMessage`: the literal
`fmt.Sprintf` template, with `%d` applied to `now.UnixNano()` for the
nonce line and RFC3339 formatting abstracted as `fmt`. -/
def ethChallenge (config : Web3Configuration) (chainCfg : BlockchainConfig)
    (address uri : String) (nowNano : Int) (fmt : Int → String) : String :=
  config.Domain ++ " wants you to sign in with your " ++
  chainCfg.NetworkName ++ " account:\n" ++ address ++
  "\n\nURI: " ++ uri ++
  "\nVersion: " ++ config.Version ++
  "\nChain ID: " ++ chainCfg.ChainID ++
  "\nNonce: " ++ toString nowNano ++
  "\nIssued At: " ++ fmt nowNano ++
  "\nExpiration Time: " ++ fmt (nowNano + config.Timeout)

/-- `Web3Provider.GenerateSignMessage(address, chain, uri)`. -/
def generateSignMessage (p : Web3Provider) (rand : Nat → Nat) (nowNano : Int)
    (fmt : Int → String) (address chain uri : String) : Except String String :=
  let chain := if chain = "" then p.defaultChain else chain
  match p.chains.lookup chain with
  | none => .error ("unsupported chain: " ++ chain)
  | some chainCfg =>
      let nonce := secureToken rand
      if chainCfg.NetworkName = BlockchainSolana then
        .ok (constructMessage fmt
          { Domain := p.config.Domain, Address := address,
            Statement := p.config.Statement, URI := uri,
            Version := p.config.Version, Nonce := nonce, ChainID := "",
            IssuedAt := some nowNano, NotBefore := none,
            ExpirationTime := none, Resources := [] })
      else if chainCfg.NetworkName = BlockchainEthereum then
        .ok (ethChallenge p.config chainCfg address uri nowNano fmt)
      else
        .error ("message generation not implemented for " ++ chainCfg.NetworkName)

/-! ## Claim theorems -/

/-- C1: for every message and claimed address and every abstract ECDSA
backend, a 65-byte signature whose recovery byte is 0 is accepted by
`VerifyEthereumSignature` exactly when the same signature with recovery
byte 27 is, and likewise 1 versus 28: the verifier adds 27 to a
recovery byte below 27, so both conventions verify identically against
the same address. -/
theorem verifyEthereumSignature_v_normalization (E : EthEnv)
    (message address s0 s27 s1 s28 : String) (rs : List Nat)
    (hlen : rs.length = 64)
    (h0 : hexDecodeStr (removeHexPrefix s0) = some (rs ++ [0]))
    (h27 : hexDecodeStr (removeHexPrefix s27) = some (rs ++ [27]))
    (h1 : hexDecodeStr (removeHexPrefix s1) = some (rs ++ [1]))
    (h28 : hexDecodeStr (removeHexPrefix s28) = some (rs ++ [28])) :
    verifyEthereumSignature E message s0 address =
      verifyEthereumSignature E message s27 address ∧
    verifyEthereumSignature E message s1 address =
      verifyEthereumSignature E message s28 address ∧
    (∀ v, v < 27 → adjustV (rs ++ [v]) = rs ++ [v + 27]) := by
  have a0 : adjustV (rs ++ [0]) = rs ++ [27] := adjustV_concat_lt rs 0 (by norm_num)
  have a27 : adjustV (rs ++ [27]) = rs ++ [27] := adjustV_concat_ge rs 27 (by norm_num)
  have a1 : adjustV (rs ++ [1]) = rs ++ [28] := adjustV_concat_lt rs 1 (by norm_num)
  have a28 : adjustV (rs ++ [28]) = rs ++ [28] := adjustV_concat_ge rs 28 (by norm_num)
  refine ⟨?_, ?_, fun v hv => adjustV_concat_lt rs v hv⟩
  · simp only [verifyEthereumSignature, h0, h27, verifyEthSigBytes, a0, a27]
    simp [hlen]
  · simp only [verifyEthereumSignature, h0, h27, h1, h28, verifyEthSigBytes, a1, a28]
    simp [hlen]

theorem verifyEthereumSignature_v_normalization_witness :
    verifyEthereumSignature ⟨fun _ => [], fun _ _ => none, fun _ => [], fun _ => []⟩
        "m" (String.mk (List.replicate 130 '0')) "a" =
      verifyEthereumSignature ⟨fun _ => [], fun _ _ => none, fun _ => [], fun _ => []⟩
        "m" (String.mk (List.replicate 128 '0') ++ "1b") "a" :=
  (verifyEthereumSignature_v_normalization
    ⟨fun _ => [], fun _ _ => none, fun _ => [], fun _ => []⟩ "m" "a"
    (String.mk (List.replicate 130 '0'))
    (String.mk (List.replicate 128 '0') ++ "1b")
    (String.mk (List.replicate 128 '0') ++ "01")
    (String.mk (List.replicate 128 '0') ++ "1c")
    (List.replicate 64 0) (by decide) (by decide) (by decide) (by decide)
    (by decide)).1

/-- A concrete instantiation of the AES-GCM/HKDF parameters used to
instantiate hypotheses at the witnesses: the sealed text records the
key (length-prefixed) and opening checks it. -/
def testGCM : GCMPrims where
  hkdfSHA256 := fun km i => km ++ strBytes i
  gcmSeal := fun k _ p => k.length :: (k ++ p)
  gcmOpen := fun k _ c =>
    if c.take (k.length + 1) = k.length :: k then some (c.drop (k.length + 1))
    else none

theorem testGCM_roundtrip (k n p : List Nat) :
    testGCM.gcmOpen k n (testGCM.gcmSeal k n p) = some p := by
  simp [testGCM, List.take_succ_cons, List.take_left, List.drop_succ_cons,
    List.drop_left]

theorem testGCM_auth (k k' n p : List Nat) (hne : k ≠ k') :
    testGCM.gcmOpen k' n (testGCM.gcmSeal k n p) = none := by
  have hcond : (k.length :: (k ++ p)).take (k'.length + 1) ≠ k'.length :: k' := by
    rw [List.take_succ_cons]
    intro h
    injection h with h1 h2
    rw [← h1, List.take_left] at h2
    exact hne h2
  show (if (k.length :: (k ++ p)).take (k'.length + 1) = k'.length :: k'
      then some ((k.length :: (k ++ p)).drop (k'.length + 1)) else none) = none
  rw [if_neg hcond]

/-- C2: for every record identifier, byte payload (empty included), key
identifier and URL-safe-base64 key material decoding to exactly 32
bytes, an envelope produced by `NewEncryptedString` decrypts under the
same record identifier — with a lookup table sending that key
identifier to the same key material — back to the original payload. -/
theorem newEncryptedString_decrypt_roundtrip (P : GCMPrims) (rand : Nat → Nat)
    (id keyID keyB64 : String) (data km : List Nat)
    (keys : List (String × String)) (es : EncryptedString)
    (hgcm : ∀ k n p, P.gcmOpen k n (P.gcmSeal k n p) = some p)
    (hdec : base64RawURLDecode keyB64 = some km)
    (hkm : km.length = 32)
    (hkeys : keys.lookup keyID = some keyB64)
    (henc : newEncryptedString P rand id data keyID keyB64 = .ok es) :
    es.decrypt P id keys = .ok data := by
  have hkb : keyB64 ≠ "" := by
    intro h
    rw [h] at hdec
    simp only [base64RawURLDecode] at hdec
    have : b64Decode "".data = some [] := rfl
    rw [this] at hdec
    obtain rfl : km = [] := by injection hdec with h'; exact h'.symm
    simp at hkm
  have hderive : deriveSymmetricKey P id keyID keyB64 = .ok (P.hkdfSHA256 km id) := by
    simp [deriveSymmetricKey, hdec, hkm]
  have hes : es = ⟨keyID, "aes-gcm-hkdf",
      P.gcmSeal (P.hkdfSHA256 km id) ((List.range 12).map (fun i => rand i % 256)) data,
      (List.range 12).map (fun i => rand i % 256)⟩ := by
    rw [newEncryptedString, hderive] at henc
    injection henc with h'
    exact h'.symm
  subst hes
  simp [EncryptedString.decrypt, hkeys, hkb, hderive, hgcm]

theorem newEncryptedString_decrypt_roundtrip_witness :
    EncryptedString.decrypt
      ⟨"k", "aes-gcm-hkdf",
        33 :: ((List.replicate 32 0 ++ [114]) ++ [1, 2, 3]),
        List.replicate 12 0⟩
      testGCM "r" [("k", String.mk (List.replicate 43 'A'))] = .ok [1, 2, 3] :=
  newEncryptedString_decrypt_roundtrip testGCM (fun _ => 0) "r" "k"
    (String.mk (List.replicate 43 'A')) [1, 2, 3] (List.replicate 32 0)
    [("k", String.mk (List.replicate 43 'A'))]
    ⟨"k", "aes-gcm-hkdf", 33 :: ((List.replicate 32 0 ++ [114]) ++ [1, 2, 3]),
      List.replicate 12 0⟩
    testGCM_roundtrip (by decide) (by decide) (by decide) (by rfl)

/-- C3: an envelope produced by `NewEncryptedString` under record
identifier `idA`, decrypted under a different record identifier `idB`
with the same key material available under its key ID, fails with the
AEAD authentication error rather than returning any plaintext, given
that HKDF separates the two record contexts and that AES-GCM rejects a
ciphertext sealed under a different key. -/
theorem decrypt_other_record_fails (P : GCMPrims) (rand : Nat → Nat)
    (idA idB keyID keyB64 : String) (data km : List Nat)
    (keys : List (String × String)) (es : EncryptedString)
    (hauth : ∀ k k' n p, k ≠ k' → P.gcmOpen k' n (P.gcmSeal k n p) = none)
    (hdec : base64RawURLDecode keyB64 = some km)
    (hkm : km.length = 32)
    (hsep : P.hkdfSHA256 km idA ≠ P.hkdfSHA256 km idB)
    (hkeys : keys.lookup keyID = some keyB64)
    (henc : newEncryptedString P rand idA data keyID keyB64 = .ok es) :
    es.decrypt P idB keys = .error "cipher: message authentication failed" := by
  have hkb : keyB64 ≠ "" := by
    intro h
    rw [h] at hdec
    have : b64Decode "".data = some [] := rfl
    simp only [base64RawURLDecode, this] at hdec
    obtain rfl : km = [] := by injection hdec with h'; exact h'.symm
    simp at hkm
  have hderiveA : deriveSymmetricKey P idA keyID keyB64 = .ok (P.hkdfSHA256 km idA) := by
    simp [deriveSymmetricKey, hdec, hkm]
  have hderiveB : deriveSymmetricKey P idB keyID keyB64 = .ok (P.hkdfSHA256 km idB) := by
    simp [deriveSymmetricKey, hdec, hkm]
  have hes : es = ⟨keyID, "aes-gcm-hkdf",
      P.gcmSeal (P.hkdfSHA256 km idA) ((List.range 12).map (fun i => rand i % 256)) data,
      (List.range 12).map (fun i => rand i % 256)⟩ := by
    rw [newEncryptedString, hderiveA] at henc
    injection henc with h'
    exact h'.symm
  subst hes
  simp [EncryptedString.decrypt, hkeys, hkb, hderiveB, hauth _ _ _ _ hsep]

theorem decrypt_other_record_fails_witness :
    EncryptedString.decrypt
      ⟨"k", "aes-gcm-hkdf",
        33 :: ((List.replicate 32 0 ++ [65]) ++ [1, 2, 3]),
        List.replicate 12 0⟩
      testGCM "B" [("k", String.mk (List.replicate 43 'A'))]
      = .error "cipher: message authentication failed" :=
  decrypt_other_record_fails testGCM (fun _ => 0) "A" "B" "k"
    (String.mk (List.replicate 43 'A')) [1, 2, 3] (List.replicate 32 0)
    [("k", String.mk (List.replicate 43 'A'))]
    ⟨"k", "aes-gcm-hkdf", 33 :: ((List.replicate 32 0 ++ [65]) ++ [1, 2, 3]),
      List.replicate 12 0⟩
    testGCM_auth (by decide) (by decide) (by decide) (by decide) (by rfl)

/-- The AEAD seal of this model strictly lengthens the plaintext, the
shape shared with the 16-byte AES-GCM tag. -/
theorem testGCM_seal_longer (k n p : List Nat) :
    p.length < (testGCM.gcmSeal k n p).length := by
  simp [testGCM]
  omega

/-- The validity predicate, componentwise. -/
theorem isValid_iff (es : EncryptedString) :
    es.isValid = true ↔
      (es.KeyID ≠ "" ∧ es.Data ≠ [] ∧ es.Nonce ≠ [] ∧
        es.Algorithm = "aes-gcm-hkdf") := by
  simp [EncryptedString.isValid, List.length_pos]

/-- C9 (counterexample): `NewEncryptedString` does not validate the
supplied key identifier, so with an empty key ID it succeeds yet
returns an envelope that fails the validity predicate and that a
round trip through parsing treats as absent. -/
theorem newEncryptedString_empty_keyID_invalid :
    (newEncryptedString testGCM (fun _ => 0) "r" [1] ""
        (String.mk (List.replicate 43 'A'))).map
      (fun es => (es.isValid, parseEncryptedString (fun _ => some es) "\x7b\x7d"))
      = .ok (false, none) := by rfl

/-- C9 (amended): every envelope successfully returned by
`NewEncryptedString` under a non-empty key identifier satisfies the
validity predicate — its key ID is the supplied one, its algorithm is
exactly `aes-gcm-hkdf`, its nonce is exactly 12 bytes and its data is
non-empty even for an empty plaintext (the AEAD seal strictly lengthens
its input) — so a round trip through serialization and
`ParseEncryptedString` never treats such an envelope as absent. -/
theorem newEncryptedString_satisfies_validity (P : GCMPrims) (rand : Nat → Nat)
    (id keyID keyB64 : String) (data : List Nat) (es : EncryptedString)
    (hseal : ∀ k n p, p.length < (P.gcmSeal k n p).length)
    (hkeyID : keyID ≠ "")
    (henc : newEncryptedString P rand id data keyID keyB64 = .ok es) :
    es.KeyID = keyID ∧ es.Algorithm = "aes-gcm-hkdf" ∧ es.Nonce.length = 12 ∧
    es.Data ≠ [] ∧ es.isValid = true ∧
    (∀ jsonParse s, "\x7b".data.isPrefixOf s.data → jsonParse s = some es →
      parseEncryptedString jsonParse s = some es) := by
  rcases hd : deriveSymmetricKey P id keyID keyB64 with e | key
  · rw [newEncryptedString, hd] at henc
    exact absurd henc (by simp)
  · rw [newEncryptedString, hd] at henc
    have hes : es = ⟨keyID, "aes-gcm-hkdf",
        P.gcmSeal key ((List.range 12).map (fun i => rand i % 256)) data,
        (List.range 12).map (fun i => rand i % 256)⟩ := by
      injection henc with h'
      exact h'.symm
    subst hes
    have hdata : P.gcmSeal key ((List.range 12).map (fun i => rand i % 256)) data ≠ [] := by
      have := hseal key ((List.range 12).map (fun i => rand i % 256)) data
      intro h
      rw [h] at this
      simp at this
    have hvalid : EncryptedString.isValid
        ⟨keyID, "aes-gcm-hkdf",
          P.gcmSeal key ((List.range 12).map (fun i => rand i % 256)) data,
          (List.range 12).map (fun i => rand i % 256)⟩ = true := by
      rw [isValid_iff]
      exact ⟨hkeyID, hdata, by simp, rfl⟩
    refine ⟨rfl, rfl, by simp, hdata, hvalid, ?_⟩
    intro jsonParse s hpre hjp
    simp [parseEncryptedString, hpre, hjp, hvalid]

theorem newEncryptedString_satisfies_validity_witness :
    EncryptedString.isValid
      ⟨"k", "aes-gcm-hkdf",
        33 :: ((List.replicate 32 0 ++ [114]) ++ [1, 2, 3]),
        List.replicate 12 0⟩ = true :=
  (newEncryptedString_satisfies_validity testGCM (fun _ => 0) "r" "k"
    (String.mk (List.replicate 43 'A')) [1, 2, 3]
    ⟨"k", "aes-gcm-hkdf", 33 :: ((List.replicate 32 0 ++ [114]) ++ [1, 2, 3]),
      List.replicate 12 0⟩
    testGCM_seal_longer (by decide) (by rfl)).2.2.2.2.1

/-- C7: `ParseEncryptedString` returns absent — never an error — for
every input that does not begin with `{`, for every input the JSON
unmarshal rejects, and for every input whose parsed envelope fails the
validity predicate (key ID non-empty, data non-empty, nonce non-empty,
algorithm exactly `aes-gcm-hkdf`); it returns an envelope only when all
of these hold. -/
theorem parseEncryptedString_absent_cases
    (jsonParse : String → Option EncryptedString) (str : String) :
    (¬ "\x7b".data.isPrefixOf str.data → parseEncryptedString jsonParse str = none) ∧
    (jsonParse str = none → parseEncryptedString jsonParse str = none) ∧
    (∀ es, jsonParse str = some es → es.isValid = false →
      parseEncryptedString jsonParse str = none) ∧
    (∀ es, parseEncryptedString jsonParse str = some es →
      "\x7b".data.isPrefixOf str.data = true ∧ jsonParse str = some es ∧
      es.isValid = true ∧ es.KeyID ≠ "" ∧ es.Data ≠ [] ∧ es.Nonce ≠ [] ∧
      es.Algorithm = "aes-gcm-hkdf") := by
  refine ⟨?_, ?_, ?_, ?_⟩
  · intro h
    simp [parseEncryptedString, h]
  · intro h
    by_cases hp : "\x7b".data.isPrefixOf str.data <;> simp [parseEncryptedString, hp, h]
  · intro es hj hv
    by_cases hp : "\x7b".data.isPrefixOf str.data <;> simp [parseEncryptedString, hp, hj, hv]
  · intro es h
    by_cases hp : "\x7b".data.isPrefixOf str.data
    · rcases hj : jsonParse str with _ | es'
      · simp [parseEncryptedString, hp, hj] at h
      · rcases hv : es'.isValid with _ | _
        · simp [parseEncryptedString, hp, hj, hv] at h
        · have hes : es' = es := by
            simp [parseEncryptedString, hp, hj, hv] at h
            exact h
          subst hes
          obtain ⟨k1, k2, k3, k4⟩ := (isValid_iff es').mp hv
          exact ⟨by simp [hp], rfl, hv, k1, k2, k3, k4⟩
    · simp [parseEncryptedString, hp] at h

theorem parseEncryptedString_absent_cases_witness :
    parseEncryptedString (fun _ => none) "x" = none :=
  (parseEncryptedString_absent_cases (fun _ => none) "x").1 (by decide)

/-- C10: `NewWeb3Provider` returns an error whenever the configuration
is not enabled, regardless of the rest of the configuration, and
construction succeeds exactly when the provider is enabled, the chain
table parses, and a non-empty default chain is a key of the parsed
table. -/
theorem newWeb3Provider_spec (config : Web3Configuration)
    (parse : Except String (List (String × BlockchainConfig))) :
    (config.Enabled = false →
      newWeb3Provider config parse = .error "Web3 provider is not enabled") ∧
    (∀ p, newWeb3Provider config parse = .ok p ↔
      (config.Enabled = true ∧ parse = .ok p.chains ∧ p.config = config ∧
       p.defaultChain = config.DefaultChain ∧
       (config.DefaultChain ≠ "" →
         (p.chains.lookup config.DefaultChain).isSome))) := by
  constructor
  · intro h
    simp [newWeb3Provider, h]
  · intro p
    rcases hp : parse with e | chains
    · by_cases he : config.Enabled <;> simp [newWeb3Provider, he, hp]
    · by_cases he : config.Enabled
      · by_cases hd : config.DefaultChain ≠ "" ∧
            (chains.lookup config.DefaultChain).isNone
        · constructor
          · intro h
            simp [newWeb3Provider, he, hd] at h
          · rintro ⟨-, hpar, -, -, hdef⟩
            obtain rfl : chains = p.chains := by injection hpar with h'
            have := hdef hd.1
            rw [Option.isNone_iff_eq_none] at hd
            rw [hd.2] at this
            simp at this
        · constructor
          · intro h
            simp only [newWeb3Provider, he, if_true, if_neg hd] at h
            obtain rfl : (⟨config, chains, config.DefaultChain⟩ : Web3Provider) = p := by
              injection h with h'
            push_neg at hd
            refine ⟨by simp [he], rfl, rfl, rfl, ?_⟩
            intro hne
            have h2 := hd hne
            have h3 : (chains.lookup config.DefaultChain).isSome = true := by
              cases hopt : chains.lookup config.DefaultChain with
              | none => simp [hopt] at h2
              | some v => simp
            simpa using h3
          · rintro ⟨-, hpar, hcfg, hdef, -⟩
            obtain rfl : chains = p.chains := by injection hpar with h'
            simp only [newWeb3Provider, he, if_true, if_neg hd]
            cases p
            simp_all
      · constructor
        · intro h
          simp [newWeb3Provider, he] at h
        · rintro ⟨h, -⟩
          simp [h] at he

theorem newWeb3Provider_spec_witness :
    newWeb3Provider ⟨false, "", "", "", 0, ""⟩ (.ok []) =
      .error "Web3 provider is not enabled" :=
  (newWeb3Provider_spec ⟨false, "", "", "", 0, ""⟩ (.ok [])).1 rfl

/-- C5: on a well-formed call (non-empty raw message and signature,
message present), an empty expected domain is rejected as the
configuration error `ErrMissingDomain`; and when the expected domain is
non-empty and the message's domain has valid domain syntax, any
inequality between the two — case or trailing characters included —
makes `VerifySIWS` fail with `ErrDomainMismatch`, regardless of the
signature or any other field. -/
theorem verifySIWS_domain_binding (E : SIWSEnv) (raw : String)
    (sig : List Nat) (msg : SIWSMessage) (params : SIWSVerificationParams)
    (now : Int) (hraw : raw ≠ "") (hsig : sig ≠ []) :
    (params.ExpectedDomain = "" →
      verifySIWS E raw sig (some msg) params now = some .missingDomain) ∧
    (params.ExpectedDomain ≠ "" → E.isValidDomain msg.Domain = true →
      msg.Domain ≠ params.ExpectedDomain →
      verifySIWS E raw sig (some msg) params now = some .domainMismatch) := by
  constructor
  · intro h
    simp [verifySIWS, hraw, hsig, h]
  · intro h1 h2 h3
    simp [verifySIWS, hraw, hsig, h1, h2, h3]

theorem verifySIWS_domain_binding_witness :
    verifySIWS ⟨fun _ => true, fun _ => [], fun _ => true, fun _ _ _ => true⟩
      "m" [0] (some ⟨"a.co", "x", "", "", "1", "", "", none, none, none, []⟩)
      ⟨"A.co", true, 5⟩ 0 = some .domainMismatch :=
  (verifySIWS_domain_binding
    ⟨fun _ => true, fun _ => [], fun _ => true, fun _ _ _ => true⟩
    "m" [0] ⟨"a.co", "x", "", "", "1", "", "", none, none, none, []⟩
    ⟨"A.co", true, 5⟩ 0 (by decide) (by decide)).2 (by decide) (by decide)
    (by decide)

/-- C8: once the checks before step 7 pass, a present but unparsable
`uri` makes `VerifySIWS` fail with `ErrInvalidURI`, and — when `uri`
itself passes — any resource entry failing URI parsing makes it fail
with `ErrInvalidResourceURI`. -/
theorem verifySIWS_uri_validation (E : SIWSEnv) (raw : String)
    (sig : List Nat) (msg : SIWSMessage) (params : SIWSVerificationParams)
    (now : Int)
    (hraw : raw ≠ "") (hsig : sig ≠ [])
    (hdom : params.ExpectedDomain ≠ "")
    (hvd : E.isValidDomain msg.Domain = true)
    (hdeq : msg.Domain = params.ExpectedDomain)
    (hpk : (E.base58Decode msg.Address).length = 32)
    (hver : msg.Version = "1")
    (hchain : msg.ChainID = "" ∨ isValidSolanaNetwork msg.ChainID = true)
    (hnonce : msg.Nonce = "" ∨ ¬ msg.Nonce.utf8ByteSize < 8) :
    (msg.URI ≠ "" → E.urlParseOk msg.URI = false →
      verifySIWS E raw sig (some msg) params now = some .invalidURI) ∧
    ((msg.URI = "" ∨ E.urlParseOk msg.URI = true) →
      (∃ r ∈ msg.Resources, E.urlParseOk r = false) →
      verifySIWS E raw sig (some msg) params now = some .invalidResourceURI) := by
  have hvd' : E.isValidDomain params.ExpectedDomain = true := hdeq ▸ hvd
  constructor
  · intro hu1 hu2
    rcases hchain with hc | hc <;> rcases hnonce with hn | hn <;>
      simp [verifySIWS, isBase58PubKey, hraw, hsig, hdom, hvd', hdeq, hpk,
        hver, hc, hn, hu1, hu2]
  · intro hu hres
    have hany : msg.Resources.any (fun r => ! E.urlParseOk r) = true := by
      rw [List.any_eq_true]
      obtain ⟨r, hr, hfail⟩ := hres
      exact ⟨r, hr, by simp [hfail]⟩
    rcases hchain with hc | hc <;> rcases hnonce with hn | hn <;>
      rcases hu with hu | hu <;>
      simp [verifySIWS, isBase58PubKey, hraw, hsig, hdom, hvd', hdeq, hpk,
        hver, hc, hn, hu, hany]

theorem verifySIWS_uri_validation_witness :
    verifySIWS
      ⟨fun _ => true, fun _ => List.replicate 32 0, fun s => s != "://bad",
        fun _ _ _ => true⟩
      "m" [0] (some ⟨"a.co", "x", "", "://bad", "1", "", "", none, none, none, []⟩)
      ⟨"a.co", true, 5⟩ 0 = some .invalidURI :=
  (verifySIWS_uri_validation
    ⟨fun _ => true, fun _ => List.replicate 32 0, fun s => s != "://bad",
      fun _ _ _ => true⟩
    "m" [0] ⟨"a.co", "x", "", "://bad", "1", "", "", none, none, none, []⟩
    ⟨"a.co", true, 5⟩ 0 (by decide) (by decide) (by decide) (by decide)
    (by decide) (by decide) (by decide) (by decide) (by decide)).1
    (by decide) (by decide)

/-- C4: on a verification that reaches the time validations, with the
instant scale in nanoseconds: a set `issuedAt` in the future of `now`
is rejected as `ErrFutureMessage`; with `CheckTime` and a positive
window, `now` past `issuedAt + window` is rejected as
`ErrMessageExpired` — in particular `issuedAt = now - (window + 1s)` is
rejected while `issuedAt = now` passes the time checks; independently a
set `notBefore` later than `now` is rejected as `ErrNotYetValid` and a
set `expirationTime` earlier than `now` as `ErrMessageExpired`. -/
theorem verifySIWS_time_windows (E : SIWSEnv) (raw : String)
    (sig : List Nat) (msg : SIWSMessage) (params : SIWSVerificationParams)
    (now : Int)
    (h : ReachesTimeChecks E raw sig msg params) :
    (∀ ia, msg.IssuedAt = some ia → now < ia →
      verifySIWS E raw sig (some msg) params now = some .futureMessage) ∧
    (∀ ia, msg.IssuedAt = some ia → params.CheckTime = true →
      0 < params.TimeDuration → ia + params.TimeDuration < now →
      verifySIWS E raw sig (some msg) params now = some .messageExpired) ∧
    (msg.IssuedAt = some (now - (params.TimeDuration + 1000000000)) →
      params.CheckTime = true → 0 < params.TimeDuration →
      verifySIWS E raw sig (some msg) params now = some .messageExpired) ∧
    (msg.IssuedAt = some now → msg.NotBefore = none → msg.ExpirationTime = none →
      verifySIWS E raw sig (some msg) params now = none) ∧
    (∀ nb, msg.NotBefore = some nb → now < nb →
      (∀ ia, msg.IssuedAt = some ia → ia ≤ now ∧
        ¬(params.CheckTime = true ∧ 0 < params.TimeDuration ∧
          ia + params.TimeDuration < now)) →
      verifySIWS E raw sig (some msg) params now = some .notYetValid) ∧
    (∀ et, msg.ExpirationTime = some et → et < now →
      (∀ ia, msg.IssuedAt = some ia → ia ≤ now ∧
        ¬(params.CheckTime = true ∧ 0 < params.TimeDuration ∧
          ia + params.TimeDuration < now)) →
      (∀ nb, msg.NotBefore = some nb → nb ≤ now) →
      verifySIWS E raw sig (some msg) params now = some .messageExpired) := by
  have hr := verifySIWS_eq_timeChecks E raw sig msg params now h
  refine ⟨?_, ?_, ?_, ?_, ?_, ?_⟩
  · intro ia hia hlt
    rw [hr]
    simp [siwsTimeChecks, hia, hlt]
  · intro ia hia hct hpos hexp
    rw [hr]
    have hnf : ¬ now < ia := by omega
    simp [siwsTimeChecks, hia, hnf, hct, hpos, hexp]
  · intro hia hct hpos
    rw [hr]
    have hnf : ¬ now < now - (params.TimeDuration + 1000000000) := by omega
    have hexp : now - (params.TimeDuration + 1000000000) + params.TimeDuration < now := by
      omega
    simp [siwsTimeChecks, hia, hnf, hct, hpos, hexp]
  · intro hia hnb het
    rw [hr]
    have hnf : ¬ now < now := by omega
    have hcond : ¬(params.CheckTime = true ∧ 0 < params.TimeDuration ∧
        now + params.TimeDuration < now) := by
      rintro ⟨-, w2, w3⟩
      omega
    simp only [siwsTimeChecks, hia, if_neg hnf]
    rw [if_neg (by exact_mod_cast hcond)]
    simp [siwsLaterTimeChecks, timeSetAndNowBefore, timeSetAndNowAfter, hnb, het]
  · intro nb hnb hlt hia
    rw [hr]
    have hlater : siwsLaterTimeChecks msg now = some .notYetValid := by
      simp [siwsLaterTimeChecks, timeSetAndNowBefore, hnb, hlt]
    rcases hi : msg.IssuedAt with _ | ia
    · simp [siwsTimeChecks, hi, hlater]
    · obtain ⟨hle, hnc⟩ := hia ia hi
      have hnf : ¬ now < ia := by omega
      simp only [siwsTimeChecks, hi, if_neg hnf]
      rw [if_neg (by exact_mod_cast hnc)]
      exact hlater
  · intro et het hlt hia hnb
    rw [hr]
    have hlater : siwsLaterTimeChecks msg now = some .messageExpired := by
      have hnbf : timeSetAndNowBefore msg.NotBefore now = false := by
        rcases hn : msg.NotBefore with _ | nb
        · simp [timeSetAndNowBefore]
        · have := hnb nb hn
          simp [timeSetAndNowBefore, hn]
          omega
      simp [siwsLaterTimeChecks, hnbf, timeSetAndNowAfter, het, hlt]
    rcases hi : msg.IssuedAt with _ | ia
    · simp [siwsTimeChecks, hi, hlater]
    · obtain ⟨hle, hnc⟩ := hia ia hi
      have hnf : ¬ now < ia := by omega
      simp only [siwsTimeChecks, hi, if_neg hnf]
      rw [if_neg (by exact_mod_cast hnc)]
      exact hlater

theorem verifySIWS_time_windows_witness :
    verifySIWS ⟨fun _ => true, fun _ => List.replicate 32 0, fun _ => true,
        fun _ _ _ => true⟩
      "m" [0] (some ⟨"a.co", "x", "", "", "1", "", "", some 5, none, none, []⟩)
      ⟨"a.co", true, 7⟩ 3 = some .futureMessage :=
  ((verifySIWS_time_windows
    ⟨fun _ => true, fun _ => List.replicate 32 0, fun _ => true, fun _ _ _ => true⟩
    "m" [0] ⟨"a.co", "x", "", "", "1", "", "", some 5, none, none, []⟩
    ⟨"a.co", true, 7⟩ 3 (by unfold ReachesTimeChecks; decide)).1) 5 rfl (by decide)

/-! ## Nonce structure of the generated challenges (C6) -/

/-- Length of a base64 encoding: four characters per three bytes, plus
two or three for a trailing byte or pair. -/
theorem b64Encode_length (l : List Nat) :
    (b64Encode l).length =
      4 * (l.length / 3) +
        (if l.length % 3 = 0 then 0 else if l.length % 3 = 1 then 2 else 3) := by
  induction l using b64Encode.induct with
  | case1 => rfl
  | case2 a => simp [b64Encode]
  | case3 a b => simp [b64Encode]
  | case4 a b c rest ih =>
      simp only [b64Encode, List.length_cons, ih]
      have h1 : rest.length + 1 + 1 + 1 = rest.length + 3 := by omega
      have h3 : (rest.length + 3) / 3 = rest.length / 3 + 1 := by omega
      have h4 : (rest.length + 3) % 3 = rest.length % 3 := by omega
      simp only [h1, h3, h4]
      omega

theorem b64Char_urlsafe (v : Nat) (hv : v < 64) :
    (b64Char v).isAlphanum = true ∨ b64Char v = '-' ∨ b64Char v = '_' := by
  interval_cases v <;> decide

/-- Every character emitted by the encoder lies in the URL-safe
alphabet. -/
theorem b64Encode_urlsafe (l : List Nat) (h : ∀ x ∈ l, x < 256) :
    ∀ c ∈ b64Encode l, c.isAlphanum = true ∨ c = '-' ∨ c = '_' := by
  induction l using b64Encode.induct with
  | case1 => simp [b64Encode]
  | case2 a =>
      have ha : a < 256 := h a (by simp)
      intro c hc
      simp only [b64Encode, List.mem_cons, List.not_mem_nil, or_false] at hc
      rcases hc with rfl | rfl
      · exact b64Char_urlsafe _ (by omega)
      · exact b64Char_urlsafe _ (by omega)
  | case3 a b =>
      have ha : a < 256 := h a (by simp)
      have hb : b < 256 := h b (by simp)
      intro c hc
      simp only [b64Encode, List.mem_cons, List.not_mem_nil, or_false] at hc
      rcases hc with rfl | rfl | rfl
      · exact b64Char_urlsafe _ (by omega)
      · exact b64Char_urlsafe _ (by omega)
      · exact b64Char_urlsafe _ (by omega)
  | case4 a b c rest ih =>
      have ha : a < 256 := h a (by simp)
      have hb : b < 256 := h b (by simp)
      have hc' : c < 256 := h c (by simp)
      have hrest : ∀ x ∈ rest, x < 256 := fun x hx => h x (by simp [hx])
      intro d hd
      simp only [b64Encode, List.mem_cons] at hd
      rcases hd with rfl | rfl | rfl | rfl | hd
      · exact b64Char_urlsafe _ (by omega)
      · exact b64Char_urlsafe _ (by omega)
      · exact b64Char_urlsafe _ (by omega)
      · exact b64Char_urlsafe _ (by omega)
      · exact ih hrest d hd

/-- The `Nonce:` line of the (spec-modelled) SIWS serialization is an
infix of the rendered challenge. -/
theorem constructMessage_nonce_infix (fmt : Int → String) (m : SIWSMessage) :
    ("Nonce: " ++ m.Nonce ++ "\n").data <:+: (constructMessage fmt m).data := by
  refine ⟨(m.Domain ++ " wants you to sign in with your Solana account:\n" ++
      m.Address ++ "\n\n" ++ m.Statement ++ "\n\n" ++ "URI: " ++ m.URI ++ "\n" ++
      "Version: " ++ m.Version ++ "\n" ++ "Chain ID: " ++ m.ChainID ++ "\n").data,
    ("Issued At: " ++ (match m.IssuedAt with | some t => fmt t | none => "") ++
      (match m.NotBefore with | some t => "\nNot Before: " ++ fmt t | none => "") ++
      (match m.ExpirationTime with
       | some t => "\nExpiration Time: " ++ fmt t
       | none => "") ++
      (match m.Resources with
       | [] => ""
       | rs => "\nResources:" ++ String.join (rs.map (fun r => "\n- " ++ r)))).data,
    ?_⟩
  simp [constructMessage, String.data_append, List.append_assoc]

/-- The `Nonce:` line of the Ethereum challenge template is an infix of
the rendered challenge, and it carries `now.UnixNano()` in decimal. -/
theorem ethChallenge_nonce_infix (config : Web3Configuration)
    (chainCfg : BlockchainConfig) (address uri : String) (nowNano : Int)
    (fmt : Int → String) :
    ("\nNonce: " ++ toString nowNano ++ "\nIssued At: ").data <:+:
      (ethChallenge config chainCfg address uri nowNano fmt).data := by
  refine ⟨(config.Domain ++ " wants you to sign in with your " ++
      chainCfg.NetworkName ++ " account:\n" ++ address ++ "\n\nURI: " ++ uri ++
      "\nVersion: " ++ config.Version ++ "\nChain ID: " ++ chainCfg.ChainID).data,
    (fmt nowNano ++ "\nExpiration Time: " ++ fmt (nowNano + config.Timeout)).data,
    ?_⟩
  simp [ethChallenge, String.data_append, List.append_assoc]

/-- C6 (counterexample): for an Ethereum-family chain the challenge
returned by `GenerateSignMessage` does not contain the secure random
token at all — the `Nonce:` line carries `now.UnixNano()` instead. -/
theorem generateSignMessage_eth_nonce_not_token :
    generateSignMessage
        ⟨⟨true, "d", "s", "1", 7, "eth"⟩, [("eth", ⟨"ethereum", "1"⟩)], "eth"⟩
        (fun i => i) 0 (fun _ => "T") "addr" "eth" "u"
      = .ok (ethChallenge ⟨true, "d", "s", "1", 7, "eth"⟩ ⟨"ethereum", "1"⟩
          "addr" "u" 0 (fun _ => "T")) ∧
    ¬ ((secureToken (fun i => i)).data <:+:
        (ethChallenge ⟨true, "d", "s", "1", 7, "eth"⟩ ⟨"ethereum", "1"⟩
          "addr" "u" 0 (fun _ => "T")).data) :=
  ⟨rfl, by decide⟩

/-- C6 (amended): the nonce of a Solana-family challenge is the secure
token — a URL-safe rendering of 16 random bytes, 22 characters long,
injective in the drawn bytes so that distinct draws give distinct
nonces — embedded as the `Nonce:` line; an Ethereum-family challenge
instead embeds `now.UnixNano()` in decimal as its `Nonce:` line. -/
theorem generateSignMessage_nonce (p : Web3Provider) (rand : Nat → Nat)
    (nowNano : Int) (fmt : Int → String) (address chain uri : String) :
    (∀ cfg m,
      p.chains.lookup (if chain = "" then p.defaultChain else chain) = some cfg →
      cfg.NetworkName = BlockchainSolana →
      generateSignMessage p rand nowNano fmt address chain uri = .ok m →
      ("Nonce: " ++ secureToken rand ++ "\n").data <:+: m.data) ∧
    (∀ cfg m,
      p.chains.lookup (if chain = "" then p.defaultChain else chain) = some cfg →
      cfg.NetworkName = BlockchainEthereum →
      generateSignMessage p rand nowNano fmt address chain uri = .ok m →
      ("\nNonce: " ++ toString nowNano ++ "\nIssued At: ").data <:+: m.data) ∧
    ((secureToken rand).data.length = 22) ∧
    (∀ c ∈ (secureToken rand).data, c.isAlphanum = true ∨ c = '-' ∨ c = '_') ∧
    (∀ rand2 : Nat → Nat, secureToken rand = secureToken rand2 →
      (List.range 16).map (fun i => rand i % 256) =
        (List.range 16).map (fun i => rand2 i % 256)) := by
  have hbytes : ∀ r : Nat → Nat, ∀ x ∈ (List.range 16).map (fun i => r i % 256),
      x < 256 := by
    intro r x hx
    simp only [List.mem_map] at hx
    obtain ⟨i, -, rfl⟩ := hx
    exact Nat.mod_lt _ (by norm_num)
  refine ⟨?_, ?_, ?_, ?_, ?_⟩
  · intro cfg m hl hsol hgen
    simp only [generateSignMessage, hl, hsol] at hgen
    simp only [reduceIte] at hgen
    obtain rfl : constructMessage fmt ⟨p.config.Domain, address, p.config.Statement,
        uri, p.config.Version, secureToken rand, "", some nowNano, none, none, []⟩
        = m := by
      injection hgen
    have hinf := constructMessage_nonce_infix fmt
      ⟨p.config.Domain, address, p.config.Statement, uri, p.config.Version,
        secureToken rand, "", some nowNano, none, none, []⟩
    simpa using hinf
  · intro cfg m hl heth hgen
    simp only [generateSignMessage, hl, heth] at hgen
    simp only [reduceIte] at hgen
    obtain rfl : ethChallenge p.config cfg address uri nowNano fmt = m := by
      injection hgen
    exact ethChallenge_nonce_infix p.config cfg address uri nowNano fmt
  · have hlen : ((List.range 16).map (fun i => rand i % 256)).length = 16 := by
      simp
    simp [secureToken, base64RawURLEncode, b64Encode_length, hlen]
  · intro c hc
    simp only [secureToken, base64RawURLEncode] at hc
    exact b64Encode_urlsafe _ (hbytes rand) c hc
  · intro rand2 heq
    simp only [secureToken, base64RawURLEncode] at heq
    exact b64Encode_injective _ _ (hbytes rand) (hbytes rand2)
      (congrArg String.data heq)

theorem generateSignMessage_nonce_witness :
    ("Nonce: " ++ secureToken (fun i => i) ++ "\n").data <:+:
      (constructMessage (fun _ => "T")
        ⟨"d", "addr", "s", "u", "1", secureToken (fun i => i), "", some 0, none,
          none, []⟩).data :=
  (generateSignMessage_nonce
    ⟨⟨true, "d", "s", "1", 7, "sol"⟩, [("sol", ⟨"solana", "2"⟩)], "sol"⟩
    (fun i => i) 0 (fun _ => "T") "addr" "sol" "u").1
    ⟨"solana", "2"⟩
    (constructMessage (fun _ => "T") ⟨"d", "addr", "s", "u", "1",
      secureToken (fun i => i), "", some 0, none, none, []⟩)
    rfl rfl rfl

end Auth
